import Mathlib

/-!
# Verification of the minipack bundler against its specification

Shallow embedding of `src/minipack.js` (the published bundler: `createAsset`,
`createGraph`, `bundle`) and of the dependency extractor of the alternative
version `createDependencyGraph` found in the repository.

External collaborators (Node `fs`, `path`, babylon parser, babel transformer)
are modelled as opaque services, following the specification, which places
them out of scope:

* the parser output is a traversal-ordered list of typed AST nodes (`JsNode`);
* the file system is a partial map from paths to parsed/transformed file
  contents (`FileSystem`); a missing entry models a file that
  `fs.readFileSync` fails to read;
* `path.join(path.dirname(parent), relativePath)` is an opaque `Resolver`
  parameter; `flatRes` below instantiates it for single-directory projects;
* the babel transformer output is the `code` field carried by each file.

Machine behaviour is modelled exactly as the JavaScript executes: the
`for...of` loop over the growing queue becomes a fuel-indexed loop
(`none` = the loop has not finished within the given fuel), JS object
assignment `obj[k] = v` becomes `objInsert` on an insertion-ordered
association list, and a thrown read error becomes `Except.error`.
-/

namespace Minipack

/-- Call-expression argument node, as inspected by the traversal visitors
(`node.arguments[0].type === 'StringLiteral'` and `.value`). -/
inductive JsArg where
  | stringLit (value : String)
  | otherArg
deriving DecidableEq, Repr

/-- AST node kinds distinguished by the traversal visitors of the source:
the import declarations (with `node.source.value`), call expressions (with
`node.callee.name`, possibly absent, and `node.arguments`), and every other
node, which the visitors ignore. The list order is babel-traverse visit
order, i.e. source appearance order. -/
inductive JsNode where
  | importDecl (source : String)
  | callExpr (calleeName : Option String) (args : List JsArg)
  | otherNode
deriving DecidableEq, Repr

/-- Dependency extraction of `createAsset` (src/minipack.js lines 60-73):
the traversal has a single `ImportDeclaration` visitor pushing
`node.source.value`. -/
def createAssetDeps (ast : List JsNode) : List String :=
  ast.foldl
    (fun deps n =>
      match n with
      | JsNode.importDecl s => deps ++ [s]
      | _ => deps)
    []

/-- Dependency extraction of `createDependencyGraph` (src/unnamed/part_002
lines 319-341): an `ImportDeclaration` visitor as above, plus a
`CallExpression` visitor that pushes `node.arguments[0].value` when
`node.callee.name === 'require' && node.arguments.length === 1 &&
node.arguments[0].type === 'StringLiteral'`. -/
def createDependencyGraphDeps (ast : List JsNode) : List String :=
  ast.foldl
    (fun deps n =>
      match n with
      | JsNode.importDecl s => deps ++ [s]
      | JsNode.callExpr calleeName args =>
          match calleeName, args with
          | some name, [JsArg.stringLit v] =>
              if name = "require" then deps ++ [v] else deps
          | _, _ => deps
      | JsNode.otherNode => deps)
    []

/-- The specifier contributed by one node according to the specification
(section 4.2): every static import declaration, and every call expression
that is syntactically a call to the dependency-loading function with exactly
one string-literal argument. Written from the words of the spec, for
comparison with the extractors above. -/
def specDepOf : JsNode → Option String
  | JsNode.importDecl s => some s
  | JsNode.callExpr calleeName args =>
      match calleeName, args with
      | some name, [JsArg.stringLit v] =>
          if name = "require" then some v else none
      | _, _ => none
  | JsNode.otherNode => none

/-- Spec-side collection (section 4.2): all import declarations and all
qualifying require calls, in source appearance order. -/
def specCollectedDeps (ast : List JsNode) : List String :=
  ast.filterMap specDepOf

/-- The specifier contributed by one node when only static import
declarations are collected. -/
def importDeclDep : JsNode → Option String
  | JsNode.importDecl s => some s
  | _ => none

/-- A source file as seen through the external parser and transformer:
its AST (traversal-ordered node list) and its transpiled code. -/
structure SourceFile where
  ast : List JsNode
  code : String
deriving DecidableEq, Repr

/-- The file system, an external collaborator: `none` models a path that
`fs.readFileSync` fails to read (missing or unreadable). -/
abbrev FileSystem := String → Option SourceFile

/-- The path resolution `path.join(path.dirname(parentFilename), rel)`
performed at src/minipack.js lines 125 and 134, abstracted over the external
Node `path` module: arguments are the parent asset filename and the raw
relative specifier. -/
abbrev Resolver := String → String → String

/-- The error thrown by a failing `fs.readFileSync`, carrying the offending
path. -/
structure ReadError where
  path : String
deriving DecidableEq, Repr

instance {ε α : Type} [DecidableEq ε] [DecidableEq α] : DecidableEq (Except ε α) := fun x y =>
  match x, y with
  | Except.ok a, Except.ok b =>
      if h : a = b then isTrue (by rw [h])
      else isFalse (by intro hh; cases hh; exact h rfl)
  | Except.error a, Except.error b =>
      if h : a = b then isTrue (by rw [h])
      else isFalse (by intro hh; cases hh; exact h rfl)
  | Except.ok _, Except.error _ => isFalse (by intro hh; cases hh)
  | Except.error _, Except.ok _ => isFalse (by intro hh; cases hh)

/-- One processed module, as returned by `createAsset` and enriched with
`mapping` by `createGraph` (src/minipack.js lines 91-96 and 122). -/
structure Asset where
  id : Nat
  filename : String
  dependencies : List String
  code : String
  mapping : List (String × Nat)
deriving DecidableEq, Repr

/-- JavaScript object assignment `obj[key] = value` on an insertion-ordered
association list: overwrite in place when the key is present, append
otherwise. -/
def objInsert (m : List (String × Nat)) (k : String) (v : Nat) :
    List (String × Nat) :=
  if m.any (fun p => p.1 = k) then
    m.map (fun p => if p.1 = k then (k, v) else p)
  else
    m ++ [(k, v)]

/-- JavaScript object lookup `obj[key]`: `none` models `undefined`. -/
def objLookup (m : List (String × Nat)) (k : String) : Option Nat :=
  (m.find? (fun p => p.1 = k)).map Prod.snd

/-- `createAsset` (src/minipack.js lines 39-97): read the file (throwing a
read error when that fails), extract the import specifiers from its AST,
assign the next id from the counter, and keep the transpiled code. The
global counter `ID` is threaded explicitly as `cnt`. The `mapping` field is
absent until `createGraph` sets it; it starts empty here. -/
def createAsset (fs : FileSystem) (filename : String) (cnt : Nat) :
    Except ReadError (Asset × Nat) :=
  match fs filename with
  | none => Except.error ⟨filename⟩
  | some f =>
      Except.ok
        ({ id := cnt
           filename := filename
           dependencies := createAssetDeps f.ast
           code := f.code
           mapping := [] }, cnt + 1)

/-- The `asset.dependencies.forEach` body of `createGraph`
(src/minipack.js lines 128-147): for each relative specifier, resolve it
against the parent directory, create the child asset, record
`mapping[relativePath] = child.id`, and collect the child for the queue.
The first failing read aborts with its error. -/
def processDeps (fs : FileSystem) (res : Resolver) (parentFilename : String) :
    List String → List (String × Nat) → List Asset → Nat →
    Except ReadError (List (String × Nat) × List Asset × Nat)
  | [], mapping, children, cnt => Except.ok (mapping, children, cnt)
  | rel :: rest, mapping, children, cnt =>
      match createAsset fs (res parentFilename rel) cnt with
      | Except.error e => Except.error e
      | Except.ok (child, cnt2) =>
          processDeps fs res parentFilename rest
            (objInsert mapping rel child.id) (children ++ [child]) cnt2

/-- The `for (const asset of queue)` loop of `createGraph`
(src/minipack.js lines 117-148). `done` is the already-iterated prefix of
the queue and `todo` the remainder, so `done ++ todo` is the JavaScript
queue. Each iteration installs a fresh `mapping` on the current asset and
appends its children to the queue. The loop has no termination check other
than exhausting the queue; `fuel` counts iterations and `none` means the
loop is still running after `fuel` of them. -/
def createGraphLoop (fs : FileSystem) (res : Resolver) :
    Nat → List Asset → List Asset → Nat →
    Option (Except ReadError (List Asset × Nat))
  | 0 => fun _ _ _ => none
  | fuel + 1 => fun done todo cnt =>
      match todo with
      | [] => some (Except.ok (done, cnt))
      | asset :: rest =>
          match processDeps fs res asset.filename asset.dependencies [] [] cnt with
          | Except.error e => some (Except.error e)
          | Except.ok (mapping, children, cnt2) =>
              createGraphLoop fs res fuel
                (done ++ [{ asset with mapping := mapping }])
                (rest ++ children) cnt2

/-- `createGraph` (src/minipack.js lines 106-153): parse the entry file,
seed the queue with it, run the loop, and return the queue together with
the final value of the global id counter. `startId` is the value of the
module-global `ID` when the call begins (0 at program start). -/
def createGraph (fs : FileSystem) (res : Resolver) (entry : String)
    (startId : Nat) (fuel : Nat) :
    Option (Except ReadError (List Asset × Nat)) :=
  match createAsset fs entry startId with
  | Except.error e => some (Except.error e)
  | Except.ok (mainAsset, cnt) => createGraphLoop fs res fuel [] [mainAsset] cnt

/-- The import specifiers a file contributes, read off the file system. -/
def fileDeps (fs : FileSystem) (p : String) : List String :=
  match fs p with
  | some f => createAssetDeps f.ast
  | none => []

/-- Total number of dependency edges recorded in a graph. -/
def totalDeps (g : List Asset) : Nat :=
  (g.map (fun a => a.dependencies.length)).sum

/-- Escaping of one character by `JSON.stringify` for the characters that
occur in specifier keys (quote and backslash). -/
def jsonEscapeChar (c : Char) : String :=
  if c = '\\' then "\\\\" else if c = '"' then "\\\"" else String.singleton c

/-- String escaping of `JSON.stringify` for specifier keys. -/
def jsonEscape (s : String) : String :=
  s.toList.foldl (fun acc c => acc ++ jsonEscapeChar c) ""

/-- One `"key":value` pair of `JSON.stringify` output. -/
def jsonPairText (p : String × Nat) : String :=
  "\"" ++ jsonEscape p.1 ++ "\":" ++ toString p.2

/-- `JSON.stringify(mapping)` (src/minipack.js line 197) on the
insertion-ordered mapping object. -/
def jsonStringify (m : List (String × Nat)) : String :=
  "\x7b" ++ String.intercalate "," (m.map jsonPairText) ++ "\x7d"

/-- The registry entry emitted for one module by the `graph.forEach` of
`bundle` (src/minipack.js lines 193-198): the module id as key, the module
code wrapped in a `function (require, module, exports)` wrapper, and the
stringified mapping. -/
def moduleEntryText (mod : Asset) : String :=
  toString mod.id ++
    ": [\n      function (require, module, exports) \x7b\n        " ++
    mod.code ++ "\n      \x7d,\n      " ++ jsonStringify mod.mapping ++
    ",\n    ],"

/-- The accumulated `modules` string of `bundle`
(src/minipack.js lines 165-199). -/
def modulesText (graph : List Asset) : String :=
  graph.foldl (fun acc m => acc ++ moduleEntryText m) ""

/-- The part of the template literal of `bundle` (src/minipack.js lines
222-240) before the `modules` interpolation: the self-invoking function
with the runtime loader, ending in the bootstrap `require(0);` and the
opening of the registry object literal. -/
def loaderPrefix : String :=
  "\n    (function(modules) \x7b\n      function require(id) \x7b\n        const [fn, mapping] = modules[id];\n\n        function localRequire(name) \x7b\n          return require(mapping[name]);\n        \x7d\n\n        const module = \x7b exports : \x7b\x7d \x7d;\n\n        fn(localRequire, module, module.exports);\n\n        return module.exports;\n      \x7d\n\n      require(0);\n    \x7d)(\x7b"

/-- The part of the template literal of `bundle` after the `modules`
interpolation. -/
def loaderSuffix : String :=
  "\x7d)\n  "

/-- `bundle` (src/minipack.js lines 164-244): the loader template with the
registry entries interpolated. -/
def bundle (graph : List Asset) : String :=
  loaderPrefix ++ modulesText graph ++ loaderSuffix

/-- The top of the program (src/minipack.js lines 246-249): build the graph
from the entry, then emit the bundle. `none` when the build errors or the
loop does not finish: no bundle text is produced. -/
def runBundler (fs : FileSystem) (res : Resolver) (entry : String)
    (fuel : Nat) : Option String :=
  match createGraph fs res entry 0 fuel with
  | some (Except.ok (g, _)) => some (bundle g)
  | _ => none

/-- Number of occurrences of `needle` as a substring (at distinct start
positions) of `hay`, over character lists. -/
def countSub (needle : List Char) : List Char → Nat
  | [] => if needle.isPrefixOf ([] : List Char) then 1 else 0
  | c :: t =>
      (if needle.isPrefixOf (c :: t) then 1 else 0) + countSub needle t

/-- Runtime state of the emitted loader, with JavaScript object identity
made explicit: `nextAddr` is the next fresh heap address (each
`const module = \x7b exports : \x7b\x7d \x7d` allocates one), and `execLog`
records, in order, the id of every module whose wrapped function body has
been entered. -/
structure RuntimeState where
  nextAddr : Nat
  execLog : List Nat
deriving DecidableEq, Repr

/-- The `modules` object the emitted loader receives: for each id, the
behaviour of the wrapped module function (the ordered list of specifiers
its body passes to its local require) and the mapping object. `none`
models an id absent from the registry, on which the loader's destructuring
throws. -/
abbrev Registry := Nat → Option (List String × List (String × Nat))

/-- Execution of one wrapped module body `fn(localRequire, module,
module.exports)`: the body calls its `localRequire` on each of its
specifiers in order, and `localRequire(name)` is
`require(mapping[name])` (src/minipack.js lines 227-229, 233). A specifier
missing from the mapping makes `require` look up `modules[undefined]` and
throw, modelled as `none`. `req` is the loader `require` available to this
body. -/
def runBodyWith (req : Nat → RuntimeState → Option (Nat × RuntimeState))
    (mapping : List (String × Nat)) :
    List String → RuntimeState → Option RuntimeState
  | [], s => some s
  | name :: rest, s =>
      match objLookup mapping name with
      | none => none
      | some cid =>
          match req cid s with
          | none => none
          | some (_, s2) => runBodyWith req mapping rest s2

/-- The `require(id)` of the emitted loader (src/minipack.js lines
224-236): look up the registry entry, allocate a fresh
`module = \x7b exports : \x7b\x7d \x7d` object, run the wrapped function
body with a local require, and return the (address of) `module.exports`.
`fuel` bounds the recursion depth; `none` means the call has not returned
within it (or threw). -/
def runRequireF : Nat → Registry → Nat → RuntimeState →
    Option (Nat × RuntimeState)
  | 0 => fun _ _ _ => none
  | fuel + 1 => fun reg i s =>
      match reg i with
      | none => none
      | some (body, mapping) =>
          match runBodyWith (runRequireF fuel reg) mapping body
              ⟨s.nextAddr + 1, s.execLog ++ [i]⟩ with
          | none => none
          | some s2 => some (s.nextAddr, s2)

/-- The registry built by the emitted bundle from a graph: id-keyed, each
entry pairing the behaviour of the module's compiled code (given by the
abstract code semantics `beh`) with the module's mapping object. -/
def modulesOf (g : List Asset) (beh : String → List String) : Registry :=
  fun i => (g.find? (fun a => a.id == i)).map (fun a => (beh a.code, a.mapping))

/-- The runtime state when the bundle starts executing. -/
def initState : RuntimeState :=
  ⟨0, []⟩

/-- Reachability along dependency edges: the entry reaches itself, and from
a reachable readable file every resolved import specifier is reachable. -/
inductive Reaches (fs : FileSystem) (res : Resolver) (entry : String) :
    String → Prop
  | entry : Reaches fs res entry entry
  | step {p : String} {f : SourceFile} {s : String} :
      Reaches fs res entry p → fs p = some f →
      s ∈ createAssetDeps f.ast → Reaches fs res entry (res p s)

/-- Invariant of a mapping object under construction while its module is
processed with the id counter at `c`: keys are pairwise distinct (a
JavaScript object), values are pairwise distinct, and every value is an id
already handed out. -/
def MapInv (m : List (String × Nat)) (c : Nat) : Prop :=
  m.Pairwise (fun p q => p.1 ≠ q.1) ∧
    (m.map Prod.snd).Pairwise (fun x y => x ≠ y) ∧
    ∀ v ∈ m.map Prod.snd, v < c

/-- A set `S` of files closed under dependency resolution, every member
readable and with at least one dependency: once the traversal queue only
holds files of `S`, it never empties. -/
abbrev CycleClosed (fs : FileSystem) (res : Resolver) (S : List String) : Prop :=
  ∀ s ∈ S, (fs s).isSome = true ∧ fileDeps fs s ≠ [] ∧
    ∀ d ∈ fileDeps fs s, res s d ∈ S

/-- Resolver for a single-directory project: models Node
`path.join(path.dirname(parent), rel)` when every file lives in one
directory, so `./x.js` resolves to `x.js` and a bare `x.js` to itself. -/
def flatRes (_parent rel : String) : String :=
  match rel.toList with
  | '.' :: '/' :: rest => String.mk rest
  | _ => rel

/-- Diamond scenario file system: the entry imports `./x.js` and `./y.js`,
and both import `./z.js`. -/
def fsDiamond : FileSystem := fun p =>
  if p = "entry.js" then
    some ⟨[JsNode.importDecl "./x.js", JsNode.importDecl "./y.js"], "CE"⟩
  else if p = "x.js" then some ⟨[JsNode.importDecl "./z.js"], "CX"⟩
  else if p = "y.js" then some ⟨[JsNode.importDecl "./z.js"], "CY"⟩
  else if p = "z.js" then some ⟨[], "CZ"⟩
  else none

/-- The graph `createGraph` builds in the diamond scenario: `z.js` is
extracted twice, once per importing parent. -/
def diamondGraph : List Asset :=
  [ ⟨0, "entry.js", ["./x.js", "./y.js"], "CE", [("./x.js", 1), ("./y.js", 2)]⟩,
    ⟨1, "x.js", ["./z.js"], "CX", [("./z.js", 3)]⟩,
    ⟨2, "y.js", ["./z.js"], "CY", [("./z.js", 4)]⟩,
    ⟨3, "z.js", [], "CZ", []⟩,
    ⟨4, "z.js", [], "CZ", []⟩ ]

/-- File system where the entry names the same file through two distinct
raw specifiers, `./z.js` and `z.js`. -/
def fsTwoSpec : FileSystem := fun p =>
  if p = "entry.js" then
    some ⟨[JsNode.importDecl "./z.js", JsNode.importDecl "z.js"], "CE"⟩
  else if p = "z.js" then some ⟨[], "CZ"⟩
  else none

/-- The entry asset built from `fsTwoSpec`: the two specifiers resolve to
the same canonical path yet receive distinct ids. -/
def twoSpecEntry : Asset :=
  ⟨0, "entry.js", ["./z.js", "z.js"], "CE", [("./z.js", 1), ("z.js", 2)]⟩

/-- The graph built from `fsTwoSpec`. -/
def twoSpecGraph : List Asset :=
  [twoSpecEntry, ⟨1, "z.js", [], "CZ", []⟩, ⟨2, "z.js", [], "CZ", []⟩]

/-- Cyclic file system: `a.js` imports `./b.js` and `b.js` imports
`./a.js`. -/
def fsCycle : FileSystem := fun p =>
  if p = "a.js" then some ⟨[JsNode.importDecl "./b.js"], "CA"⟩
  else if p = "b.js" then some ⟨[JsNode.importDecl "./a.js"], "CB"⟩
  else none

/-- The two files of the cycle. -/
def cycleSet : List String :=
  ["a.js", "b.js"]

/-- Single-file project used for fresh-counter and entry-id scenarios. -/
def fsSingle : FileSystem := fun p =>
  if p = "e.js" then some ⟨[], "CE"⟩ else none

/-- Graph of `fsSingle` built with the counter at 0. -/
def singleGraph0 : List Asset :=
  [⟨0, "e.js", [], "CE", []⟩]

/-- Graph of `fsSingle` built with the counter left at 1 by a previous
build. -/
def singleGraph1 : List Asset :=
  [⟨1, "e.js", [], "CE", []⟩]

/-- Entry importing a file absent from the file system. -/
def fsMissing : FileSystem := fun p =>
  if p = "e.js" then some ⟨[JsNode.importDecl "./missing.js"], "CE"⟩
  else none

/-- One-module registry with an empty body, for exercising the loader. -/
def singletonRegistry : Registry := fun i =>
  if i = 0 then some ([], []) else none

/-- AST consisting of a single require call with one string-literal
argument. -/
def requireCallAst : List JsNode :=
  [JsNode.callExpr (some "require") [JsArg.stringLit "./m.js"]]

/-! ## Structure of one `forEach` pass over an asset's dependencies -/

/-- Successful dependency processing appends one freshly-created child per
specifier, in order: consecutive ids from the incoming counter, each child
read from the file system, and each specifier covered by a child at its
resolved path. -/
theorem processDeps_spec {fs : FileSystem} {res : Resolver} {parent : String} :
    ∀ {deps : List String} {m0 : List (String × Nat)} {ch0 : List Asset}
      {cnt : Nat} {m : List (String × Nat)} {ch : List Asset} {cnt2 : Nat},
    processDeps fs res parent deps m0 ch0 cnt = Except.ok (m, ch, cnt2) →
    ∃ newCh : List Asset,
      ch = ch0 ++ newCh ∧
      newCh.length = deps.length ∧
      cnt2 = cnt + deps.length ∧
      newCh.map (fun a => a.id) = List.range' cnt deps.length ∧
      (∀ child ∈ newCh, ∃ f, fs child.filename = some f ∧
        child.dependencies = createAssetDeps f.ast ∧ child.code = f.code) ∧
      (∀ d ∈ deps, ∃ child ∈ newCh, child.filename = res parent d) ∧
      (∀ child ∈ newCh, ∃ d ∈ deps, child.filename = res parent d) := by
  intro deps
  induction deps with
  | nil =>
      intro m0 ch0 cnt m ch cnt2 h
      simp only [processDeps, Except.ok.injEq, Prod.mk.injEq] at h
      obtain ⟨rfl, rfl, rfl⟩ := h
      exact ⟨[], by simp⟩
  | cons d rest ih =>
      intro m0 ch0 cnt m ch cnt2 h
      simp only [processDeps] at h
      cases hfd : fs (res parent d) with
      | none =>
          simp only [createAsset, hfd] at h
          exact Except.noConfusion h
      | some f =>
          simp only [createAsset, hfd] at h
          obtain ⟨newCh2, hch, hlen, hcnt, hids, hread, hcov, hcov2⟩ := ih h
          refine ⟨⟨cnt, res parent d, createAssetDeps f.ast, f.code, []⟩ :: newCh2,
            ?_, ?_, ?_, ?_, ?_, ?_, ?_⟩
          · simp [hch]
          · simp [hlen]
          · simp only [List.length_cons]
            omega
          · simp [hids, List.range'_succ]
          · intro child hc
            rcases List.mem_cons.1 hc with rfl | hc2
            · exact ⟨f, hfd, rfl, rfl⟩
            · exact hread child hc2
          · intro d2 hd2
            rcases List.mem_cons.1 hd2 with rfl | hd3
            · exact ⟨_, List.mem_cons_self _ _, rfl⟩
            · obtain ⟨child, hc, hcf⟩ := hcov d2 hd3
              exact ⟨child, List.mem_cons_of_mem _ hc, hcf⟩
          · intro child hc
            rcases List.mem_cons.1 hc with rfl | hc2
            · exact ⟨d, List.mem_cons_self _ _, rfl⟩
            · obtain ⟨d2, hd2, hcf⟩ := hcov2 child hc2
              exact ⟨d2, List.mem_cons_of_mem _ hd2, hcf⟩

/-- A failing dependency pass fails because some file could not be read,
and the error carries that path. -/
theorem processDeps_error {fs : FileSystem} {res : Resolver} {parent : String} :
    ∀ {deps : List String} {m0 : List (String × Nat)} {ch0 : List Asset}
      {cnt : Nat} {e : ReadError},
    processDeps fs res parent deps m0 ch0 cnt = Except.error e →
    fs e.path = none := by
  intro deps
  induction deps with
  | nil => intro m0 ch0 cnt e h; simp [processDeps] at h
  | cons d rest ih =>
      intro m0 ch0 cnt e h
      simp only [processDeps] at h
      cases hfd : fs (res parent d) with
      | none =>
          simp only [createAsset, hfd, Except.error.injEq] at h
          rw [← h]
          exact hfd
      | some f =>
          simp only [createAsset, hfd] at h
          exact ih h

/-! ## Structure of the queue loop -/

/-- The loop only ever appends to the already-iterated prefix. -/
theorem createGraphLoop_prefix {fs : FileSystem} {res : Resolver} :
    ∀ {fuel : Nat} {done todo : List Asset} {cnt : Nat} {g : List Asset} {c : Nat},
    createGraphLoop fs res fuel done todo cnt = some (Except.ok (g, c)) →
    ∃ rest, g = done ++ rest := by
  intro fuel
  induction fuel with
  | zero => intro done todo cnt g c h; simp [createGraphLoop] at h
  | succ n ih =>
      intro done todo cnt g c h
      cases todo with
      | nil =>
          simp only [createGraphLoop, Option.some.injEq, Except.ok.injEq,
            Prod.mk.injEq] at h
          obtain ⟨rfl, rfl⟩ := h
          exact ⟨[], by simp⟩
      | cons x rest0 =>
          simp only [createGraphLoop] at h
          cases hp : processDeps fs res x.filename x.dependencies [] [] cnt with
          | error e => rw [hp] at h; simp at h
          | ok t =>
              obtain ⟨mapping, children, cnt2⟩ := t
              rw [hp] at h
              obtain ⟨r2, hr2⟩ := ih h
              exact ⟨{ x with mapping := mapping } :: r2, by simp [hr2]⟩

/-- A loop run that surfaces an error surfaces a read error for a path that
is really unreadable. -/
theorem createGraphLoop_error {fs : FileSystem} {res : Resolver} :
    ∀ {fuel : Nat} {done todo : List Asset} {cnt : Nat} {e : ReadError},
    createGraphLoop fs res fuel done todo cnt = some (Except.error e) →
    fs e.path = none := by
  intro fuel
  induction fuel with
  | zero => intro done todo cnt e h; simp [createGraphLoop] at h
  | succ n ih =>
      intro done todo cnt e h
      cases todo with
      | nil => simp [createGraphLoop] at h
      | cons x rest0 =>
          simp only [createGraphLoop] at h
          cases hp : processDeps fs res x.filename x.dependencies [] [] cnt with
          | error e2 =>
              rw [hp] at h
              simp only [Option.some.injEq, Except.error.injEq] at h
              rw [← h]
              exact processDeps_error hp
          | ok t =>
              obtain ⟨mapping, children, cnt2⟩ := t
              rw [hp] at h
              exact ih h

/-- Every asset that has ever entered the queue is represented in the final
graph by an asset with the same filename and dependency list. -/
theorem createGraphLoop_mem {fs : FileSystem} {res : Resolver} :
    ∀ {fuel : Nat} {done todo : List Asset} {cnt : Nat} {g : List Asset} {c : Nat},
    createGraphLoop fs res fuel done todo cnt = some (Except.ok (g, c)) →
    ∀ a ∈ done ++ todo,
      ∃ b, b ∈ g ∧ b.filename = a.filename ∧ b.dependencies = a.dependencies := by
  intro fuel
  induction fuel with
  | zero => intro done todo cnt g c h; simp [createGraphLoop] at h
  | succ n ih =>
      intro done todo cnt g c h
      cases todo with
      | nil =>
          simp only [createGraphLoop, Option.some.injEq, Except.ok.injEq,
            Prod.mk.injEq] at h
          obtain ⟨rfl, rfl⟩ := h
          intro a ha
          exact ⟨a, by simpa using ha, rfl, rfl⟩
      | cons x rest0 =>
          simp only [createGraphLoop] at h
          cases hp : processDeps fs res x.filename x.dependencies [] [] cnt with
          | error e => rw [hp] at h; simp at h
          | ok t =>
              obtain ⟨mapping, children, cnt2⟩ := t
              rw [hp] at h
              intro a ha
              rcases List.mem_append.1 ha with hdone | hcons
              · exact ih h a (by simp [hdone])
              · rcases List.mem_cons.1 hcons with rfl | hrest
                · obtain ⟨b, hb, hbf, hbd⟩ :=
                    ih h { a with mapping := mapping } (by simp)
                  exact ⟨b, hb, hbf, hbd⟩
                · exact ih h a (by simp [hrest])

/-- If every asset in the queue was read from the file system, so was every
asset of the final graph. -/
theorem createGraphLoop_readable {fs : FileSystem} {res : Resolver} :
    ∀ {fuel : Nat} {done todo : List Asset} {cnt : Nat} {g : List Asset} {c : Nat},
    createGraphLoop fs res fuel done todo cnt = some (Except.ok (g, c)) →
    (∀ a ∈ done ++ todo, ∃ f, fs a.filename = some f ∧
      a.dependencies = createAssetDeps f.ast) →
    ∀ a ∈ g, ∃ f, fs a.filename = some f ∧
      a.dependencies = createAssetDeps f.ast := by
  intro fuel
  induction fuel with
  | zero => intro done todo cnt g c h; simp [createGraphLoop] at h
  | succ n ih =>
      intro done todo cnt g c h hin
      cases todo with
      | nil =>
          simp only [createGraphLoop, Option.some.injEq, Except.ok.injEq,
            Prod.mk.injEq] at h
          obtain ⟨rfl, rfl⟩ := h
          intro a ha
          exact hin a (by simp [ha])
      | cons x rest0 =>
          simp only [createGraphLoop] at h
          cases hp : processDeps fs res x.filename x.dependencies [] [] cnt with
          | error e => rw [hp] at h; simp at h
          | ok t =>
              obtain ⟨mapping, children, cnt2⟩ := t
              rw [hp] at h
              obtain ⟨newCh, hch, -, -, -, hread, -, -⟩ := processDeps_spec hp
              refine ih h ?_
              intro a ha
              rcases List.mem_append.1 ha with hleft | hright
              · rcases List.mem_append.1 hleft with hdone | hx
                · exact hin a (by simp [hdone])
                · rcases List.mem_singleton.1 hx with rfl
                  obtain ⟨f, hf, hd⟩ := hin x (by simp)
                  exact ⟨f, hf, hd⟩
              · rcases List.mem_append.1 hright with hrest | hchild
                · exact hin a (by simp [hrest])
                · have : a ∈ newCh := by rw [hch] at hchild; simpa using hchild
                  obtain ⟨f, hf, hd, -⟩ := hread a this
                  exact ⟨f, hf, hd⟩

/-- If every already-processed asset has, for each of its specifiers, a
graph asset at the resolved path, then so does every asset of the final
graph. -/
theorem createGraphLoop_edges {fs : FileSystem} {res : Resolver} :
    ∀ {fuel : Nat} {done todo : List Asset} {cnt : Nat} {g : List Asset} {c : Nat},
    createGraphLoop fs res fuel done todo cnt = some (Except.ok (g, c)) →
    (∀ a ∈ done, ∀ s ∈ a.dependencies,
      ∃ b, b ∈ g ∧ b.filename = res a.filename s) →
    ∀ a ∈ g, ∀ s ∈ a.dependencies,
      ∃ b, b ∈ g ∧ b.filename = res a.filename s := by
  intro fuel
  induction fuel with
  | zero => intro done todo cnt g c h; simp [createGraphLoop] at h
  | succ n ih =>
      intro done todo cnt g c h hin
      cases todo with
      | nil =>
          simp only [createGraphLoop, Option.some.injEq, Except.ok.injEq,
            Prod.mk.injEq] at h
          obtain ⟨rfl, rfl⟩ := h
          exact hin
      | cons x rest0 =>
          simp only [createGraphLoop] at h
          cases hp : processDeps fs res x.filename x.dependencies [] [] cnt with
          | error e => rw [hp] at h; simp at h
          | ok t =>
              obtain ⟨mapping, children, cnt2⟩ := t
              rw [hp] at h
              obtain ⟨newCh, hch, -, -, -, -, hcov, -⟩ := processDeps_spec hp
              refine ih h ?_
              intro a ha s hs
              rcases List.mem_append.1 ha with hdone | hx
              · exact hin a hdone s hs
              · rcases List.mem_singleton.1 hx with rfl
                obtain ⟨child, hcmem, hcf⟩ := hcov s (by simpa using hs)
                have hchild : child ∈ rest0 ++ children := by
                  rw [hch]
                  simp [hcmem]
                obtain ⟨b, hb, hbf, -⟩ := createGraphLoop_mem h child
                  (by simp [hchild])
                refine ⟨b, hb, ?_⟩
                rw [hbf, hcf]

/-- The final graph is the queue contents: one asset per processed queue
entry, and every queue entry contributes itself plus one child per
dependency edge. -/
theorem createGraphLoop_length {fs : FileSystem} {res : Resolver} :
    ∀ {fuel : Nat} {done todo : List Asset} {cnt : Nat} {g : List Asset} {c : Nat},
    createGraphLoop fs res fuel done todo cnt = some (Except.ok (g, c)) →
    ∃ rest, g = done ++ rest ∧ rest.length = todo.length + totalDeps rest := by
  intro fuel
  induction fuel with
  | zero => intro done todo cnt g c h; simp [createGraphLoop] at h
  | succ n ih =>
      intro done todo cnt g c h
      cases todo with
      | nil =>
          simp only [createGraphLoop, Option.some.injEq, Except.ok.injEq,
            Prod.mk.injEq] at h
          obtain ⟨rfl, rfl⟩ := h
          exact ⟨[], by simp, by simp [totalDeps]⟩
      | cons x rest0 =>
          simp only [createGraphLoop] at h
          cases hp : processDeps fs res x.filename x.dependencies [] [] cnt with
          | error e => rw [hp] at h; simp at h
          | ok t =>
              obtain ⟨mapping, children, cnt2⟩ := t
              rw [hp] at h
              obtain ⟨newCh, hch, hlen, -, -, -, -, -⟩ := processDeps_spec hp
              obtain ⟨r2, hr2, hr2len⟩ := ih h
              have hchl : children.length = x.dependencies.length := by
                rw [hch]
                simpa using hlen
              refine ⟨{ x with mapping := mapping } :: r2, by simp [hr2], ?_⟩
              simp only [totalDeps, List.length_cons, List.length_append,
                List.map_cons, List.sum_cons] at hr2len ⊢
              omega

/-- The queue always carries the ids `0, 1, ...` in order: children receive
consecutive fresh ids as they are appended. -/
theorem createGraphLoop_ids {fs : FileSystem} {res : Resolver} :
    ∀ {fuel : Nat} {done todo : List Asset} {cnt : Nat} {g : List Asset} {c : Nat},
    createGraphLoop fs res fuel done todo cnt = some (Except.ok (g, c)) →
    (done ++ todo).map (fun a => a.id) = List.range' 0 cnt →
    g.map (fun a => a.id) = List.range' 0 c := by
  intro fuel
  induction fuel with
  | zero => intro done todo cnt g c h; simp [createGraphLoop] at h
  | succ n ih =>
      intro done todo cnt g c h hinv
      cases todo with
      | nil =>
          simp only [createGraphLoop, Option.some.injEq, Except.ok.injEq,
            Prod.mk.injEq] at h
          obtain ⟨rfl, rfl⟩ := h
          simpa using hinv
      | cons x rest0 =>
          simp only [createGraphLoop] at h
          cases hp : processDeps fs res x.filename x.dependencies [] [] cnt with
          | error e => rw [hp] at h; simp at h
          | ok t =>
              obtain ⟨mapping, children, cnt2⟩ := t
              rw [hp] at h
              obtain ⟨newCh, hch, -, hcnt, hids, -, -, -⟩ := processDeps_spec hp
              refine ih h ?_
              have hchids : children.map (fun a => a.id) =
                  List.range' cnt x.dependencies.length := by
                rw [hch]
                simpa using hids
              have happ := List.range'_append_1 0 cnt x.dependencies.length
              rw [Nat.zero_add] at happ
              rw [hcnt, Nat.add_comm cnt x.dependencies.length, ← happ,
                ← hinv, ← hchids]
              simp

/-! ## The mapping object of one module -/

/-- `MapInv` holds for the empty mapping a module starts with. -/
theorem mapInv_nil (c : Nat) : MapInv [] c :=
  ⟨List.Pairwise.nil, List.Pairwise.nil, by simp⟩

/-- Everything in an inserted mapping object is the new pair or an original
entry. -/
theorem mem_objInsert {m : List (String × Nat)} {k : String} {v : Nat}
    {q : String × Nat} (hq : q ∈ objInsert m k v) : q = (k, v) ∨ q ∈ m := by
  unfold objInsert at hq
  split at hq
  · rcases List.mem_map.1 hq with ⟨p, hp, hfp⟩
    by_cases h : p.1 = k
    · rw [if_pos h] at hfp
      exact Or.inl hfp.symm
    · rw [if_neg h] at hfp
      exact Or.inr (hfp ▸ hp)
  · rcases List.mem_append.1 hq with h | h
    · exact Or.inr h
    · rcases List.mem_singleton.1 h with rfl
      exact Or.inl rfl

/-- Inserting under a key distinct from the head skips the head. -/
theorem objInsert_cons_ne {p : String × Nat} {m : List (String × Nat)}
    {k : String} {v : Nat} (hp : p.1 ≠ k) :
    objInsert (p :: m) k v = p :: objInsert m k v := by
  simp only [objInsert, List.any_cons, decide_eq_false hp, Bool.false_or]
  split
  · simp [List.map_cons, if_neg hp]
  · simp

/-- Inserting under the head's key (unique, as object keys are) overwrites
the head in place. -/
theorem objInsert_head {p : String × Nat} {m : List (String × Nat)}
    {k : String} {v : Nat} (hp : p.1 = k) (hm : ∀ q ∈ m, q.1 ≠ k) :
    objInsert (p :: m) k v = (k, v) :: m := by
  have h2 : m.map (fun q => if q.1 = k then (k, v) else q) = m := by
    rw [show m.map (fun q => if q.1 = k then (k, v) else q) = m.map id from
      List.map_congr_left fun q hq => if_neg (hm q hq)]
    exact List.map_id m
  simp only [objInsert, List.any_cons, decide_eq_true hp, Bool.true_or]
  simp [List.map_cons, if_pos hp, h2]

/-- JavaScript object assignment of a fresh id preserves the mapping
invariant: keys stay unique, values stay pairwise distinct and bounded by
the advanced counter. -/
theorem objInsert_inv {k : String} : ∀ {m : List (String × Nat)} {c : Nat},
    MapInv m c → MapInv (objInsert m k c) (c + 1) := by
  intro m
  induction m with
  | nil =>
      intro c _
      have : objInsert [] k c = [(k, c)] := by simp [objInsert]
      rw [this]
      refine ⟨by simp, by simp, ?_⟩
      intro v hv
      simp only [List.map_cons, List.map_nil, List.mem_singleton] at hv
      omega
  | cons p m2 ih =>
      intro c h
      obtain ⟨hkeys, hvals, hlt⟩ := h
      rw [List.pairwise_cons] at hkeys
      obtain ⟨hpk, hkeys2⟩ := hkeys
      rw [List.map_cons, List.pairwise_cons] at hvals
      obtain ⟨hpv, hvals2⟩ := hvals
      have hplt : p.2 < c := hlt p.2 (by simp)
      have hlt2 : ∀ v ∈ m2.map Prod.snd, v < c := by
        intro v hv
        exact hlt v (by simp [hv])
      by_cases hp : p.1 = k
      · have hm2 : ∀ q ∈ m2, q.1 ≠ k := by
          intro q hq
          rw [← hp]
          exact (hpk q hq).symm
        rw [objInsert_head hp hm2]
        refine ⟨?_, ?_, ?_⟩
        · rw [List.pairwise_cons]
          refine ⟨?_, hkeys2⟩
          intro q hq
          exact (hm2 q hq).symm
        · rw [List.map_cons, List.pairwise_cons]
          refine ⟨?_, hvals2⟩
          intro v hv
          have := hlt2 v hv
          show c ≠ v
          omega
        · intro v hv
          rw [List.map_cons] at hv
          rcases List.mem_cons.1 hv with hveq | hv2
          · rw [hveq]
            exact Nat.lt_succ_self c
          · have := hlt2 v hv2
            omega
      · rw [objInsert_cons_ne hp]
        have hrec := ih ⟨hkeys2, hvals2, hlt2⟩
        obtain ⟨hrkeys, hrvals, hrlt⟩ := hrec
        refine ⟨?_, ?_, ?_⟩
        · rw [List.pairwise_cons]
          refine ⟨?_, hrkeys⟩
          intro q hq
          rcases mem_objInsert hq with rfl | hq2
          · exact hp
          · exact hpk q hq2
        · rw [List.map_cons, List.pairwise_cons]
          refine ⟨?_, hrvals⟩
          intro v hv
          rcases List.mem_map.1 hv with ⟨q, hq, rfl⟩
          rcases mem_objInsert hq with hqeq | hq2
          · rw [hqeq]
            show p.2 ≠ c
            omega
          · exact hpv q.2 (List.mem_map_of_mem Prod.snd hq2)
        · intro v hv
          rw [List.map_cons] at hv
          rcases List.mem_cons.1 hv with hveq | hv2
          · rw [hveq]
            omega
          · exact hrlt v hv2

/-- Processing a dependency list preserves the mapping invariant. -/
theorem processDeps_mapInv {fs : FileSystem} {res : Resolver} {parent : String} :
    ∀ {deps : List String} {m0 : List (String × Nat)} {ch0 : List Asset}
      {cnt : Nat} {m : List (String × Nat)} {ch : List Asset} {cnt2 : Nat},
    processDeps fs res parent deps m0 ch0 cnt = Except.ok (m, ch, cnt2) →
    MapInv m0 cnt → MapInv m cnt2 := by
  intro deps
  induction deps with
  | nil =>
      intro m0 ch0 cnt m ch cnt2 h hm
      simp only [processDeps, Except.ok.injEq, Prod.mk.injEq] at h
      obtain ⟨rfl, rfl, rfl⟩ := h
      exact hm
  | cons d rest ih =>
      intro m0 ch0 cnt m ch cnt2 h hm
      simp only [processDeps] at h
      cases hfd : fs (res parent d) with
      | none =>
          simp only [createAsset, hfd] at h
          exact Except.noConfusion h
      | some f =>
          simp only [createAsset, hfd] at h
          exact ih h (objInsert_inv hm)

/-- Every asset of the final graph carries a mapping whose values are
pairwise distinct, because its mapping was rebuilt from scratch with
strictly increasing fresh child ids. -/
theorem createGraphLoop_mapInv {fs : FileSystem} {res : Resolver} :
    ∀ {fuel : Nat} {done todo : List Asset} {cnt : Nat} {g : List Asset} {c : Nat},
    createGraphLoop fs res fuel done todo cnt = some (Except.ok (g, c)) →
    (∀ a ∈ done, (a.mapping.map Prod.snd).Pairwise (fun x y => x ≠ y)) →
    ∀ a ∈ g, (a.mapping.map Prod.snd).Pairwise (fun x y => x ≠ y) := by
  intro fuel
  induction fuel with
  | zero => intro done todo cnt g c h; simp [createGraphLoop] at h
  | succ n ih =>
      intro done todo cnt g c h hin
      cases todo with
      | nil =>
          simp only [createGraphLoop, Option.some.injEq, Except.ok.injEq,
            Prod.mk.injEq] at h
          obtain ⟨rfl, rfl⟩ := h
          exact hin
      | cons x rest0 =>
          simp only [createGraphLoop] at h
          cases hp : processDeps fs res x.filename x.dependencies [] [] cnt with
          | error e => rw [hp] at h; simp at h
          | ok t =>
              obtain ⟨mapping, children, cnt2⟩ := t
              rw [hp] at h
              have hmap : MapInv mapping cnt2 :=
                processDeps_mapInv hp (mapInv_nil cnt)
              refine ih h ?_
              intro a ha
              rcases List.mem_append.1 ha with hdone | hx
              · exact hin a hdone
              · rcases List.mem_singleton.1 hx with rfl
                exact hmap.2.1

/-! ## The traversal never leaves a dependency-closed set of files -/

/-- Inside a dependency-closed set every dependency pass succeeds, and every
child it creates is a file of the set carrying that file's dependency
list. -/
theorem processDeps_cycle {fs : FileSystem} {res : Resolver} {S : List String}
    (hC : CycleClosed fs res S) {parent : String} :
    ∀ {deps : List String} {m0 : List (String × Nat)} {ch0 : List Asset}
      {cnt : Nat},
    (∀ d ∈ deps, res parent d ∈ S) →
    ∃ m ch cnt2,
      processDeps fs res parent deps m0 ch0 cnt = Except.ok (m, ch, cnt2) ∧
      ch.length = ch0.length + deps.length ∧
      ∀ child ∈ ch, child ∈ ch0 ∨
        (child.filename ∈ S ∧
          child.dependencies = fileDeps fs child.filename) := by
  intro deps
  induction deps with
  | nil =>
      intro m0 ch0 cnt _
      exact ⟨m0, ch0, cnt, rfl, by simp, fun child hc => Or.inl hc⟩
  | cons d rest ih =>
      intro m0 ch0 cnt hS
      have hdS : res parent d ∈ S := hS d (by simp)
      obtain ⟨hsome, -, -⟩ := hC _ hdS
      cases hfd : fs (res parent d) with
      | none => rw [hfd] at hsome; simp at hsome
      | some f =>
          obtain ⟨m, ch, cnt2, hok, hlen, hmem⟩ :=
            @ih (objInsert m0 d cnt)
              (ch0 ++ [⟨cnt, res parent d, createAssetDeps f.ast, f.code, []⟩])
              (cnt + 1) (fun d2 hd2 => hS d2 (by simp [hd2]))
          refine ⟨m, ch, cnt2, ?_, ?_, ?_⟩
          · simp only [processDeps, createAsset, hfd]
            exact hok
          · rw [hlen]
            simp only [List.length_append, List.length_cons, List.length_nil]
            omega
          · intro child hc
            rcases hmem child hc with hc0 | hnew
            · rcases List.mem_append.1 hc0 with h0 | hx
              · exact Or.inl h0
              · rcases List.mem_singleton.1 hx with rfl
                refine Or.inr ⟨hdS, ?_⟩
                show createAssetDeps f.ast = fileDeps fs (res parent d)
                simp [fileDeps, hfd]
            · exact Or.inr hnew

/-- If the whole queue lies inside a dependency-closed set, the loop runs
out of any amount of fuel: the queue never empties. -/
theorem createGraphLoop_cycle {fs : FileSystem} {res : Resolver}
    {S : List String} (hC : CycleClosed fs res S) :
    ∀ (fuel : Nat) {done todo : List Asset} {cnt : Nat},
    todo ≠ [] →
    (∀ a ∈ todo, a.filename ∈ S ∧
      a.dependencies = fileDeps fs a.filename) →
    createGraphLoop fs res fuel done todo cnt = none := by
  intro fuel
  induction fuel with
  | zero => intro done todo cnt _ _; rfl
  | succ n ih =>
      intro done todo cnt hne hinv
      cases todo with
      | nil => exact absurd rfl hne
      | cons x rest0 =>
          obtain ⟨hxS, hxdeps⟩ := hinv x (by simp)
          obtain ⟨-, hnil, hclosed⟩ := hC x.filename hxS
          have hresS : ∀ d ∈ x.dependencies, res x.filename d ∈ S := by
            intro d hd
            refine hclosed d ?_
            rw [← hxdeps]
            exact hd
          obtain ⟨m, ch, cnt2, hok, hlen, hmem⟩ :=
            @processDeps_cycle fs res S hC x.filename x.dependencies [] [] cnt
              hresS
          simp only [createGraphLoop, hok]
          have hchlen : ch.length = x.dependencies.length := by simpa using hlen
          have hdepsne : x.dependencies ≠ [] := by
            rw [hxdeps]
            exact hnil
          apply ih
          · intro hco
            have hchnil : ch = [] := (List.append_eq_nil.1 hco).2
            rw [hchnil] at hchlen
            exact hdepsne (List.eq_nil_of_length_eq_zero hchlen.symm)
          · intro a ha
            rcases List.mem_append.1 ha with h0 | hch
            · exact hinv a (by simp [h0])
            · rcases hmem a hch with habs | hgood
              · exact absurd habs (List.not_mem_nil a)
              · exact hgood

/-- Starting anywhere inside a dependency-closed set, `createGraph` never
finishes: cyclic dependencies make the `for...of` loop run forever. -/
theorem createGraph_cycle_none {fs : FileSystem} {res : Resolver}
    {S : List String} {entry : String} {startId : Nat}
    (hC : CycleClosed fs res S) (he : entry ∈ S) :
    ∀ fuel, createGraph fs res entry startId fuel = none := by
  intro fuel
  obtain ⟨hsome, -, -⟩ := hC entry he
  cases hfe : fs entry with
  | none => rw [hfe] at hsome; simp at hsome
  | some f =>
      simp only [createGraph, createAsset, hfe]
      apply createGraphLoop_cycle hC fuel
      · simp
      · intro a ha
        rcases List.mem_singleton.1 ha with rfl
        refine ⟨he, ?_⟩
        show createAssetDeps f.ast = fileDeps fs entry
        simp [fileDeps, hfe]

/-! ## One-call facts about `createGraph` -/

/-- A successful build begins its graph with the entry asset, whose id is
the incoming value of the global counter. -/
theorem createGraph_head {fs : FileSystem} {res : Resolver} {entry : String}
    {startId fuel : Nat} {g : List Asset} {c : Nat}
    (h : createGraph fs res entry startId fuel = some (Except.ok (g, c))) :
    ∃ a t, g = a :: t ∧ a.id = startId ∧ a.filename = entry := by
  cases hfe : fs entry with
  | none => simp [createGraph, createAsset, hfe] at h
  | some f =>
      simp only [createGraph, createAsset, hfe] at h
      cases fuel with
      | zero => simp [createGraphLoop] at h
      | succ n =>
          simp only [createGraphLoop] at h
          cases hp : processDeps fs res entry (createAssetDeps f.ast) [] []
              (startId + 1) with
          | error e => rw [hp] at h; simp at h
          | ok t =>
              obtain ⟨mapping, children, cnt2⟩ := t
              rw [hp] at h
              obtain ⟨rest, hrest⟩ := createGraphLoop_prefix h
              simp only [List.nil_append, List.singleton_append] at hrest
              exact ⟨_, rest, hrest, rfl, rfl⟩

/-- A failed build fails with a read error whose path is really
unreadable. -/
theorem createGraph_error_missing {fs : FileSystem} {res : Resolver}
    {entry : String} {startId fuel : Nat} {e : ReadError}
    (h : createGraph fs res entry startId fuel = some (Except.error e)) :
    fs e.path = none := by
  cases hfe : fs entry with
  | none =>
      simp only [createGraph, createAsset, hfe, Option.some.injEq,
        Except.error.injEq] at h
      rw [← h]
      exact hfe
  | some f =>
      simp only [createGraph, createAsset, hfe] at h
      exact createGraphLoop_error h

/-- A successful build contains the entry, reads every asset from the file
system, and has a graph asset at the resolved path of every dependency edge
of every asset. -/
theorem createGraph_closure {fs : FileSystem} {res : Resolver} {entry : String}
    {startId fuel : Nat} {g : List Asset} {c : Nat}
    (h : createGraph fs res entry startId fuel = some (Except.ok (g, c))) :
    (∃ b, b ∈ g ∧ b.filename = entry) ∧
    (∀ a ∈ g, ∃ f2, fs a.filename = some f2 ∧
      a.dependencies = createAssetDeps f2.ast) ∧
    (∀ a ∈ g, ∀ s ∈ a.dependencies,
      ∃ b, b ∈ g ∧ b.filename = res a.filename s) := by
  cases hfe : fs entry with
  | none => simp [createGraph, createAsset, hfe] at h
  | some f =>
      simp only [createGraph, createAsset, hfe] at h
      refine ⟨?_, ?_, ?_⟩
      · obtain ⟨b, hb, hbf, -⟩ := createGraphLoop_mem h
          ⟨startId, entry, createAssetDeps f.ast, f.code, []⟩ (by simp)
        exact ⟨b, hb, hbf⟩
      · apply createGraphLoop_readable h
        intro a ha
        simp only [List.nil_append, List.mem_singleton] at ha
        rcases ha with rfl
        exact ⟨f, hfe, rfl⟩
      · apply createGraphLoop_edges h
        intro a ha
        exact absurd ha (List.not_mem_nil a)

/-- Every file reachable from the entry along import edges has an asset in
a successfully built graph. -/
theorem reaches_in_graph {fs : FileSystem} {res : Resolver} {entry : String}
    {startId fuel : Nat} {g : List Asset} {c : Nat}
    (h : createGraph fs res entry startId fuel = some (Except.ok (g, c))) :
    ∀ {p : String}, Reaches fs res entry p → ∃ b, b ∈ g ∧ b.filename = p := by
  intro p hr
  induction hr with
  | entry => exact (createGraph_closure h).1
  | step hre hfs hdep ih =>
      rename_i p2 f1 s1
      obtain ⟨b, hb, hbf⟩ := ih
      obtain ⟨f2, hf2, hdeps⟩ := (createGraph_closure h).2.1 b hb
      rw [hbf, hfs] at hf2
      injection hf2 with hf2
      have hs : s1 ∈ b.dependencies := by
        rw [hdeps, ← hf2]
        exact hdep
      obtain ⟨b2, hb2, hb2f⟩ := (createGraph_closure h).2.2 b hb s1 hs
      refine ⟨b2, hb2, ?_⟩
      rw [hb2f, hbf]

/-- In a successful build every reachable file was readable. -/
theorem reaches_readable {fs : FileSystem} {res : Resolver} {entry : String}
    {startId fuel : Nat} {g : List Asset} {c : Nat}
    (h : createGraph fs res entry startId fuel = some (Except.ok (g, c))) :
    ∀ {p : String}, Reaches fs res entry p → (fs p).isSome = true := by
  intro p hr
  obtain ⟨b, hb, hbf⟩ := reaches_in_graph h hr
  obtain ⟨f2, hf2, -⟩ := (createGraph_closure h).2.1 b hb
  rw [hbf] at hf2
  rw [hf2]
  rfl

/-! ## The runtime loader allocates and logs on every require -/

/-- State evolution of the loader: a successful `require(i)` returns the
address allocated at entry (the fresh `module.exports`), strictly advances
the allocator, and appends `i` followed by its transitive requires to the
execution log; running a body only grows both. -/
theorem runRequireF_state {reg : Registry} :
    ∀ fuel : Nat,
    (∀ i s r s2, runRequireF fuel reg i s = some (r, s2) →
      r = s.nextAddr ∧ s.nextAddr < s2.nextAddr ∧
      ∃ t, s2.execLog = s.execLog ++ i :: t) ∧
    (∀ body mapping s s2,
      runBodyWith (runRequireF fuel reg) mapping body s = some s2 →
      s.nextAddr ≤ s2.nextAddr ∧ ∃ t, s2.execLog = s.execLog ++ t) := by
  intro fuel
  induction fuel with
  | zero =>
      constructor
      · intro i s r s2 h
        simp [runRequireF] at h
      · intro body mapping s s2 h
        cases body with
        | nil =>
            simp only [runBodyWith, Option.some.injEq] at h
            subst h
            exact ⟨Nat.le_refl _, [], by simp⟩
        | cons name rest =>
            simp only [runBodyWith] at h
            cases hl : objLookup mapping name with
            | none => simp [hl] at h
            | some cid => simp [hl, runRequireF] at h
  | succ n ih =>
      obtain ⟨ihReq, ihBody⟩ := ih
      have hreq : ∀ i s r s2, runRequireF (n + 1) reg i s = some (r, s2) →
          r = s.nextAddr ∧ s.nextAddr < s2.nextAddr ∧
          ∃ t, s2.execLog = s.execLog ++ i :: t := by
        intro i s r s2 h
        simp only [runRequireF] at h
        cases hri : reg i with
        | none => simp [hri] at h
        | some t =>
            obtain ⟨body, mapping⟩ := t
            simp only [hri] at h
            cases hb : runBodyWith (runRequireF n reg) mapping body
                ⟨s.nextAddr + 1, s.execLog ++ [i]⟩ with
            | none => simp [hb] at h
            | some s3 =>
                simp only [hb, Option.some.injEq, Prod.mk.injEq] at h
                obtain ⟨rfl, rfl⟩ := h
                obtain ⟨hle, t1, ht1⟩ := ihBody body mapping _ _ hb
                refine ⟨rfl, ?_, t1, ?_⟩
                · have h1 : s.nextAddr + 1 ≤ s3.nextAddr := hle
                  omega
                · rw [ht1]
                  simp
      refine ⟨hreq, ?_⟩
      intro body mapping
      induction body with
      | nil =>
          intro s s2 h
          simp only [runBodyWith, Option.some.injEq] at h
          subst h
          exact ⟨Nat.le_refl _, [], by simp⟩
      | cons name rest ihr =>
          intro s s2 h
          simp only [runBodyWith] at h
          cases hl : objLookup mapping name with
          | none => simp [hl] at h
          | some cid =>
              simp only [hl] at h
              cases hrr : runRequireF (n + 1) reg cid s with
              | none => simp [hrr] at h
              | some t =>
                  obtain ⟨v, s3⟩ := t
                  simp only [hrr] at h
                  obtain ⟨-, hlt, t1, ht1⟩ := hreq cid s v s3 hrr
                  obtain ⟨hle2, t2, ht2⟩ := ihr s3 s2 h
                  refine ⟨by omega, cid :: (t1 ++ t2), ?_⟩
                  rw [ht2, ht1]
                  simp

/-! ## Claim C1 -/

/-- C1 as stated is false: in the diamond scenario (entry imports `./x.js`
and `./y.js`, both import `./z.js`) the graph built by `createGraph` holds
two assets for `z.js`, not one, and the mappings of `x` and `y` send
`./z.js` to the distinct ids 3 and 4. -/
theorem c1_counterexample :
    createGraph fsDiamond flatRes "entry.js" 0 10 =
      some (Except.ok (diamondGraph, 5)) ∧
    (diamondGraph.filter (fun a => a.filename = "z.js")).length = 2 ∧
    ¬ (diamondGraph.filter (fun a => a.filename = "z.js")).length = 1 ∧
    (diamondGraph.find? (fun a => a.filename = "x.js")).map
        (fun a => objLookup a.mapping "./z.js") = some (some 3) ∧
    (diamondGraph.find? (fun a => a.filename = "y.js")).map
        (fun a => objLookup a.mapping "./z.js") = some (some 4) ∧
    ¬ ((diamondGraph.find? (fun a => a.filename = "x.js")).map
          (fun a => objLookup a.mapping "./z.js") =
        (diamondGraph.find? (fun a => a.filename = "y.js")).map
          (fun a => objLookup a.mapping "./z.js")) := by
  decide

/-- C1 amended: the graph returned by a terminating `createGraph` run holds
exactly one asset per import edge plus one for the entry (`createAsset` is
called once per edge, with no deduplication by canonical path), so its size
is one more than the total number of dependency edges; in the diamond
scenario this gives two separate assets for `z.js`. -/
theorem c1_amended_theorem {fs : FileSystem} {res : Resolver} {entry : String}
    {startId fuel : Nat} {g : List Asset} {c : Nat}
    (h : createGraph fs res entry startId fuel = some (Except.ok (g, c))) :
    g.length = 1 + totalDeps g := by
  cases hfe : fs entry with
  | none => simp [createGraph, createAsset, hfe] at h
  | some f =>
      simp only [createGraph, createAsset, hfe] at h
      obtain ⟨rest, hrest, hlen⟩ := createGraphLoop_length h
      simp only [List.nil_append] at hrest
      subst hrest
      simpa using hlen

/-- Witness for the amended C1 on the diamond scenario: 5 assets, 4 import
edges. -/
theorem c1_amended_witness :
    createGraph fsDiamond flatRes "entry.js" 0 10 =
      some (Except.ok (diamondGraph, 5)) ∧
    diamondGraph.length = 1 + totalDeps diamondGraph :=
  ⟨by decide,
    @c1_amended_theorem fsDiamond flatRes "entry.js" 0 10 diamondGraph 5
      (by decide)⟩

/-! ## Claim C2 -/

/-- C2 as stated is false: on the two-file cycle (`a.js` imports `./b.js`,
`b.js` imports `./a.js`) `createGraph` never terminates — no amount of
fuel makes the queue loop finish. -/
theorem c2_counterexample :
    CycleClosed fsCycle flatRes cycleSet ∧ "a.js" ∈ cycleSet ∧
    ¬ ∃ fuel, (createGraph fsCycle flatRes "a.js" 0 fuel).isSome = true := by
  refine ⟨by decide, by decide, ?_⟩
  rintro ⟨fuel, hf⟩
  rw [@createGraph_cycle_none fsCycle flatRes cycleSet "a.js" 0
    (by decide) (by decide) fuel] at hf
  simp at hf

/-- C2 amended: on any cyclic input — entry inside a set of readable files
each of which has dependencies and all of whose dependencies resolve back
into the set — `createGraph` does not terminate: the queue never empties
and the cycle members are re-extracted at every pass, so every fuel bound
is exhausted. -/
theorem c2_amended_theorem {fs : FileSystem} {res : Resolver}
    {S : List String} {entry : String} {startId : Nat}
    (hC : CycleClosed fs res S) (he : entry ∈ S) (fuel : Nat) :
    createGraph fs res entry startId fuel = none :=
  createGraph_cycle_none hC he fuel

/-- Witness for the amended C2 on the two-file cycle. -/
theorem c2_amended_witness :
    CycleClosed fsCycle flatRes cycleSet ∧ "a.js" ∈ cycleSet ∧
    createGraph fsCycle flatRes "a.js" 0 9 = none :=
  ⟨by decide, by decide,
    @c2_amended_theorem fsCycle flatRes cycleSet "a.js" 0
      (by decide) (by decide) 9⟩

/-! ## Claim C3 -/

set_option maxRecDepth 4000 in
/-- C3: in a build started with the id counter at 0 (as in the program,
which runs `createGraph` once at start-up), the entry asset heads the graph
with id 0; the emitted loader text bootstraps with exactly one
`require(0)`, the registry entry for id 0 carries the entry module's code
and mapping, and whenever the loader's `require(0)` returns, the first
module body executed is module 0 — the entry module's compiled code. -/
theorem c3_entry_id_bootstrap {fs : FileSystem} {res : Resolver}
    {entry : String} {fuel : Nat} {g : List Asset} {c : Nat}
    (beh : String → List String)
    (h : createGraph fs res entry 0 fuel = some (Except.ok (g, c))) :
    ∃ a t, g = a :: t ∧ a.id = 0 ∧ a.filename = entry ∧
      modulesOf g beh 0 = some (beh a.code, a.mapping) ∧
      countSub (String.toList "require(0)") (String.toList loaderPrefix) = 1 ∧
      ∀ f2 r s2, runRequireF f2 (modulesOf g beh) 0 initState = some (r, s2) →
        ∃ t2, s2.execLog = 0 :: t2 := by
  obtain ⟨a, t, hg, hid, hfn⟩ := createGraph_head h
  refine ⟨a, t, hg, hid, hfn, ?_, by decide, ?_⟩
  · rw [hg]
    simp [modulesOf, List.find?, hid]
  · intro f2 r s2 hrun
    obtain ⟨-, -, t2, ht2⟩ := (runRequireF_state f2).1 0 initState r s2 hrun
    exact ⟨t2, by simpa using ht2⟩

set_option maxRecDepth 4000 in
/-- Witness for C3 on the single-file project. -/
theorem c3_witness :
    createGraph fsSingle flatRes "e.js" 0 3 =
      some (Except.ok (singleGraph0, 1)) ∧
    (∃ a t, singleGraph0 = a :: t ∧ a.id = 0 ∧ a.filename = "e.js" ∧
      modulesOf singleGraph0 (fun _ => []) 0 = some ([], a.mapping) ∧
      countSub (String.toList "require(0)") (String.toList loaderPrefix) = 1 ∧
      ∀ f2 r s2, runRequireF f2 (modulesOf singleGraph0 (fun _ => [])) 0
          initState = some (r, s2) →
        ∃ t2, s2.execLog = 0 :: t2) :=
  ⟨by decide,
    @c3_entry_id_bootstrap fsSingle flatRes "e.js" 3 singleGraph0 1
      (fun _ => []) (by decide)⟩

/-! ## Claim C4 -/

/-- C4 as stated is false for the extractor of `createAsset`
(src/minipack.js): on a file whose only dependency is a require call with
one string-literal argument, `createAsset` collects nothing, while the
claimed dual collection yields the specifier. -/
theorem c4_counterexample :
    createAssetDeps requireCallAst = [] ∧
    specCollectedDeps requireCallAst = ["./m.js"] ∧
    ¬ createAssetDeps requireCallAst = specCollectedDeps requireCallAst := by
  decide

/-- C4 amended: `createAsset` collects only the static import declarations,
in source appearance order; the dual collection described by the claim —
the imports plus require calls whose callee is named `require` with exactly
one string-literal argument, in source order — is performed by the
`createDependencyGraph` variant (src/unnamed/part_002), which agrees
exactly with the spec-side collection. -/
theorem c4_amended_theorem (ast : List JsNode) :
    createAssetDeps ast = ast.filterMap importDeclDep ∧
    createDependencyGraphDeps ast = specCollectedDeps ast := by
  induction ast using List.reverseRecOn with
  | nil => exact ⟨rfl, rfl⟩
  | append_singleton l n ih =>
      obtain ⟨ih1, ih2⟩ := ih
      constructor
      · simp only [createAssetDeps, List.foldl_append, List.foldl_cons,
          List.foldl_nil, List.filterMap_append] at ih1 ⊢
        rw [ih1]
        cases n with
        | importDecl s => simp [importDeclDep]
        | callExpr cn args => simp [importDeclDep]
        | otherNode => simp [importDeclDep]
      · simp only [createDependencyGraphDeps, specCollectedDeps,
          List.foldl_append, List.foldl_cons, List.foldl_nil,
          List.filterMap_append] at ih2 ⊢
        rw [ih2]
        cases n with
        | importDecl s => simp [specDepOf]
        | otherNode => simp [specDepOf]
        | callExpr cn args =>
            cases cn with
            | none => simp [specDepOf]
            | some name =>
                cases args with
                | nil => simp [specDepOf]
                | cons a1 rest2 =>
                    cases rest2 with
                    | nil =>
                        cases a1 with
                        | stringLit v =>
                            by_cases hreq : name = "require"
                            · simp [specDepOf, hreq]
                            · simp [specDepOf, hreq]
                        | otherArg => simp [specDepOf]
                    | cons a2 rest3 => simp [specDepOf]

/-! ## Claim C5 -/

set_option maxRecDepth 8000 in
/-- C5: for every graph, `bundle` emits the self-invoking loader applied to
the registry text; the registry text concatenates one entry per module
pairing that module's code inside the three-parameter
`function (require, module, exports)` wrapper with its stringified mapping;
and the fixed loader body opens as a single self-invoking function, defines
`localRequire` once, contains the bootstrap `require(0)` exactly once and
ends with it directly before the registry argument. -/
theorem c5_bundle_shape (g : List Asset) (m : Asset) :
    bundle g = loaderPrefix ++ modulesText g ++ loaderSuffix ∧
    modulesText g = g.foldl (fun acc x => acc ++ moduleEntryText x) "" ∧
    moduleEntryText m = toString m.id ++
      ": [\n      function (require, module, exports) \x7b\n        " ++
      m.code ++ "\n      \x7d,\n      " ++ jsonStringify m.mapping ++
      ",\n    ]," ∧
    (String.toList "\n    (function(modules) \x7b").isPrefixOf
      (String.toList loaderPrefix) = true ∧
    countSub (String.toList "require(0)") (String.toList loaderPrefix) = 1 ∧
    countSub (String.toList "require(0)") (String.toList loaderSuffix) = 0 ∧
    countSub (String.toList "function localRequire(name)")
      (String.toList loaderPrefix) = 1 ∧
    (String.toList "require(0);\n    \x7d)(\x7b").isSuffixOf
      (String.toList loaderPrefix) = true :=
  ⟨rfl, rfl, rfl, by decide, by decide, by decide, by decide, by decide⟩

/-! ## Claim C6 -/

/-- C6: the loader caches nothing: a successful `require(i)` returns the
address of the `module.exports` object freshly allocated by that very
invocation and logs an execution of module `i`; requiring the same id again
re-executes the body and returns a different, newly built exports object. -/
theorem c6_no_caching {reg : Registry} {f1 f2 i : Nat}
    {s s1 s2 : RuntimeState} {r1 r2 : Nat}
    (h1 : runRequireF f1 reg i s = some (r1, s1))
    (h2 : runRequireF f2 reg i s1 = some (r2, s2)) :
    r1 ≠ r2 ∧
    (∃ t, s1.execLog = s.execLog ++ i :: t) ∧
    (∃ t, s2.execLog = s1.execLog ++ i :: t) := by
  obtain ⟨hr1, hlt1, t1, ht1⟩ := (runRequireF_state f1).1 i s r1 s1 h1
  obtain ⟨hr2, hlt2, t2, ht2⟩ := (runRequireF_state f2).1 i s1 r2 s2 h2
  refine ⟨?_, ⟨t1, ht1⟩, ⟨t2, ht2⟩⟩
  rw [hr1, hr2]
  omega

/-- Witness for C6: requiring module 0 twice in the one-module registry
returns addresses 0 then 1 and logs two executions of module 0. -/
theorem c6_witness :
    runRequireF 1 singletonRegistry 0 initState = some (0, ⟨1, [0]⟩) ∧
    runRequireF 1 singletonRegistry 0 ⟨1, [0]⟩ = some (1, ⟨2, [0, 0]⟩) ∧
    ((0 : Nat) ≠ 1 ∧
      (∃ t, ([0] : List Nat) = [] ++ 0 :: t) ∧
      (∃ t, ([0, 0] : List Nat) = [0] ++ 0 :: t)) :=
  ⟨by decide, by decide,
    @c6_no_caching singletonRegistry 1 1 0 initState ⟨1, [0]⟩ ⟨2, [0, 0]⟩ 0 1
      (by decide) (by decide)⟩

/-! ## Claim C7 -/

/-- C7 as stated is false: the two distinct raw specifiers `./z.js` and
`z.js` of the entry of `fsTwoSpec` resolve to the same canonical path, yet
the entry's mapping sends them to the distinct ids 1 and 2, because
`createGraph` creates a fresh asset per specifier occurrence. -/
theorem c7_counterexample :
    createGraph fsTwoSpec flatRes "entry.js" 0 6 =
      some (Except.ok (twoSpecGraph, 3)) ∧
    twoSpecEntry ∈ twoSpecGraph ∧
    flatRes "entry.js" "./z.js" = flatRes "entry.js" "z.js" ∧
    ¬ ("./z.js" : String) = "z.js" ∧
    objLookup twoSpecEntry.mapping "./z.js" = some 1 ∧
    objLookup twoSpecEntry.mapping "z.js" = some 2 ∧
    ¬ objLookup twoSpecEntry.mapping "./z.js" =
        objLookup twoSpecEntry.mapping "z.js" := by
  decide

/-- C7 amended: `createGraph` performs no deduplication by canonical path:
within any one module of a built graph, distinct raw specifiers always
receive distinct ids (each specifier occurrence creates a fresh child
asset), even when they resolve to the same canonical path. -/
theorem c7_amended_theorem {fs : FileSystem} {res : Resolver} {entry : String}
    {startId fuel : Nat} {g : List Asset} {c : Nat}
    (h : createGraph fs res entry startId fuel = some (Except.ok (g, c))) :
    ∀ a, a ∈ g →
      (a.mapping.map Prod.snd).Pairwise (fun x y => x ≠ y) := by
  cases hfe : fs entry with
  | none => simp [createGraph, createAsset, hfe] at h
  | some f =>
      simp only [createGraph, createAsset, hfe] at h
      exact fun a ha =>
        createGraphLoop_mapInv h
          (fun b hb => absurd hb (List.not_mem_nil b)) a ha

/-- Witness for the amended C7 on the two-specifier scenario. -/
theorem c7_amended_witness :
    createGraph fsTwoSpec flatRes "entry.js" 0 6 =
      some (Except.ok (twoSpecGraph, 3)) ∧
    twoSpecEntry ∈ twoSpecGraph ∧
    (twoSpecEntry.mapping.map Prod.snd).Pairwise (fun x y => x ≠ y) :=
  ⟨by decide, by decide,
    @c7_amended_theorem fsTwoSpec flatRes "entry.js" 0 6 twoSpecGraph 3
      (by decide) twoSpecEntry (by decide)⟩

/-! ## Claim C8 -/

/-- C8: when a file reachable from the entry along import edges is
unreadable, any outcome the build reaches is a `ReadError` carrying a
genuinely unreadable path (the error propagates unswallowed to the top),
and the program emits no bundle text. -/
theorem c8_missing_file_aborts {fs : FileSystem} {res : Resolver}
    {entry p : String} {fuel : Nat}
    {r : Except ReadError (List Asset × Nat)}
    (hreach : Reaches fs res entry p) (hmiss : fs p = none)
    (hrun : createGraph fs res entry 0 fuel = some r) :
    (∃ q, r = Except.error ⟨q⟩ ∧ fs q = none) ∧
    runBundler fs res entry fuel = none := by
  cases r with
  | ok t =>
      obtain ⟨g, c⟩ := t
      have hsome := reaches_readable hrun hreach
      rw [hmiss] at hsome
      simp at hsome
  | error e =>
      have hep : fs e.path = none := createGraph_error_missing hrun
      refine ⟨⟨e.path, rfl, hep⟩, ?_⟩
      simp [runBundler, hrun]

/-- Witness for C8: the entry imports `./missing.js`, which is absent; the
build stops with `ReadError "missing.js"` and no bundle is produced. -/
theorem c8_witness :
    Reaches fsMissing flatRes "e.js" "missing.js" ∧
    fsMissing "missing.js" = none ∧
    createGraph fsMissing flatRes "e.js" 0 5 =
      some (Except.error ⟨"missing.js"⟩) ∧
    ((∃ q, (Except.error ⟨"missing.js"⟩ :
          Except ReadError (List Asset × Nat)) =
        Except.error ⟨q⟩ ∧ fsMissing q = none) ∧
      runBundler fsMissing flatRes "e.js" 5 = none) := by
  have hreach : Reaches fsMissing flatRes "e.js" "missing.js" := by
    have h1 : fsMissing "e.js" =
        some ⟨[JsNode.importDecl "./missing.js"], "CE"⟩ := rfl
    have h2 := @Reaches.step fsMissing flatRes "e.js" "e.js"
      ⟨[JsNode.importDecl "./missing.js"], "CE"⟩ "./missing.js"
      Reaches.entry h1 (by decide)
    have h3 : flatRes "e.js" "./missing.js" = "missing.js" := by decide
    rw [h3] at h2
    exact h2
  exact ⟨hreach, by decide, by decide,
    c8_missing_file_aborts hreach (by decide) (by decide)⟩

/-! ## Claim C9 -/

/-- C9 as stated is false: the id counter is module-global state shared by
successive `createGraph` calls, not reset per call; a second build of the
same single-file entry (counter left at 1 by the first) yields an entry
asset with id 1, not 0, and a different result than the first build. -/
theorem c9_counterexample :
    createGraph fsSingle flatRes "e.js" 0 3 =
      some (Except.ok (singleGraph0, 1)) ∧
    createGraph fsSingle flatRes "e.js" 1 3 =
      some (Except.ok (singleGraph1, 2)) ∧
    singleGraph1.map (fun a => a.id) = [1] ∧
    ¬ singleGraph1.map (fun a => a.id) = [0] ∧
    ¬ singleGraph0 = singleGraph1 := by
  decide

/-- C9 amended: builds share the module-global id counter: the entry asset
of any successful build carries as id the counter value at call time, so a
second successive build repeats the first (entry id 0 included) only if the
counter is reset to 0 between calls. -/
theorem c9_amended_theorem {fs : FileSystem} {res : Resolver} {entry : String}
    {startId fuel : Nat} {g : List Asset} {c : Nat}
    (h : createGraph fs res entry startId fuel = some (Except.ok (g, c))) :
    ∃ a t, g = a :: t ∧ a.id = startId ∧ a.filename = entry :=
  createGraph_head h

/-- Witness for the amended C9: the second build's entry asset has id 1. -/
theorem c9_amended_witness :
    createGraph fsSingle flatRes "e.js" 1 3 =
      some (Except.ok (singleGraph1, 2)) ∧
    (∃ a t, singleGraph1 = a :: t ∧ a.id = 1 ∧ a.filename = "e.js") :=
  ⟨by decide,
    @c9_amended_theorem fsSingle flatRes "e.js" 1 3 singleGraph1 2
      (by decide)⟩

/-! ## Claim C10 -/

/-- C10: starting from counter value 0, the ids of the returned graph are
the consecutive integers `0 .. n-1` in queue (extraction) order: the asset
at index `i` has id `i`, and the final counter equals the graph size. -/
theorem c10_consecutive_ids {fs : FileSystem} {res : Resolver}
    {entry : String} {fuel : Nat} {g : List Asset} {c : Nat}
    (h : createGraph fs res entry 0 fuel = some (Except.ok (g, c))) :
    g.map (fun a => a.id) = List.range g.length ∧ c = g.length ∧
    ∀ i, (hi : i < g.length) → g[i].id = i := by
  cases hfe : fs entry with
  | none => simp [createGraph, createAsset, hfe] at h
  | some f =>
      simp only [createGraph, createAsset, hfe] at h
      have hids := createGraphLoop_ids h (by simp)
      have hlen : g.length = c := by
        have hc := congrArg List.length hids
        simpa using hc
      have hmap : g.map (fun a => a.id) = List.range g.length := by
        rw [List.range_eq_range', hlen]
        exact hids
      refine ⟨hmap, hlen.symm, ?_⟩
      intro i hi
      have hgi := List.getElem_of_eq hmap (by simpa using hi)
      rw [List.getElem_map] at hgi
      rw [hgi]
      exact List.getElem_range _ _

/-- Witness for C10 on the diamond scenario: ids 0..4 in queue order. -/
theorem c10_witness :
    createGraph fsDiamond flatRes "entry.js" 0 10 =
      some (Except.ok (diamondGraph, 5)) ∧
    (diamondGraph.map (fun a => a.id) = List.range diamondGraph.length ∧
      5 = diamondGraph.length ∧
      ∀ i, (hi : i < diamondGraph.length) → diamondGraph[i].id = i) :=
  ⟨by decide,
    @c10_consecutive_ids fsDiamond flatRes "entry.js" 10 diamondGraph 5
      (by decide)⟩

end Minipack
